import Mathlib

set_option maxHeartbeats 1000000

/-!
Verification of the spcharms helper library of
the storpool-openstack-integration charm layers.

The Python sources are shallowly embedded: dictionaries become association
lists or total lookup functions, raised exceptions become `Except` errors,
and the external package manager, service manager and file system are
modelled as explicit state threaded through the functions.
-/

/-! ## Package reconciler: spcharms/repo.py -/

/-- Version information for one package as parsed from `apt-cache policy`
output by `apt_pkg_policy` (repo.py): the currently installed version and
the candidate version; `none` models apt's `(none)`. -/
structure PkgVer where
  installed : Option String
  candidate : Option String
deriving DecidableEq

/-- Typed errors raised by the spcharms helpers (spcharms/error.py). -/
inductive SPError where
  | packageInstall (names : List String) (cause : String)
  | noConfig (missing : List String)
  | storpool (msg : String)
deriving DecidableEq

/-- Loop body of `pkgs_to_install` (repo.py lines 85-121) for one package
`p` with requested version `req` and queried policy `ver`: `.ok true`
means the package is marked for installation, `.ok false` that it is
skipped, `.error` that a `StorPoolPackageInstallException` is raised. -/
def pkgDecision (p req : String) (ver : PkgVer) : Except SPError Bool :=
  if ver.installed = some req then
    .ok false
  else if ver.candidate = none then
    .error (.packageInstall [p] "not available in the repositories")
  else if req = "*" ∧ ver.candidate = ver.installed then
    .ok false
  else if req ≠ "*" ∧ ver.candidate ≠ some req then
    .error (.packageInstall [p]
      ("the " ++ req ++ " version is not available in the repositories, " ++
       "we have " ++ ver.candidate.getD "" ++ " instead"))
  else
    .ok true

/-- Embedding of `pkgs_to_install` (repo.py lines 76-128).  The `policy`
dict is an association list in iteration order, with `none` standing for
a package whose APT policy could not be obtained; `requested` is the
lookup into the requested-versions dict. -/
def pkgs_to_install (requested : String → String) :
    List (String × Option PkgVer) → Except SPError (List String)
  | [] => .ok []
  | (p, none) :: _ =>
    .error (.packageInstall [p] "could not obtain APT policy information")
  | (p, some ver) :: rest => do
    let need ← pkgDecision p (requested p) ver
    let tail ← pkgs_to_install requested rest
    pure (if need then p :: tail else tail)

/-- Outcome classification used by claim C1. -/
inductive C1Outcome where
  | skip
  | install
  | fatalUnavailable
  | fatalVersion
deriving DecidableEq

/-- Specification-side statement of claim C1, written from the spec's
words (PackagePolicy invariant and reconciler steps 3-6), to be compared
with the code-side `pkgDecision`: with constraint "any" skip when the
installed version equals the candidate, with an exact constraint skip
when installed equals the constraint, fatal when no candidate exists,
fatal when an exact constraint differs from the candidate, and otherwise
the package is marked for installation. -/
def c1Expected (req : String) (inst cand : Option String) : C1Outcome :=
  if req = "*" ∧ inst ≠ none ∧ inst = cand then .skip
  else if req ≠ "*" ∧ inst = some req then .skip
  else if cand = none then .fatalUnavailable
  else if req ≠ "*" ∧ cand ≠ some req then .fatalVersion
  else .install

/-- Rendering of a `C1Outcome` as the result `pkgs_to_install` would give
on the corresponding singleton request. -/
def c1Interp (p req : String) (cand : Option String) :
    C1Outcome → Except SPError (List String)
  | .skip => .ok []
  | .install => .ok [p]
  | .fatalUnavailable =>
    .error (.packageInstall [p] "not available in the repositories")
  | .fatalVersion =>
    .error (.packageInstall [p]
      ("the " ++ req ++ " version is not available in the repositories, " ++
       "we have " ++ cand.getD "" ++ " instead"))

/-- Helper: `pkgs_to_install` on a one-package request is determined by
the per-package decision. -/
theorem pkgs_to_install_singleton (requested : String → String) (p : String)
    (ver : PkgVer) :
    pkgs_to_install requested [(p, some ver)] =
      (pkgDecision p (requested p) ver).map
        (fun need => if need then [p] else []) := by
  cases hd : pkgDecision p (requested p) ver <;>
    simp [pkgs_to_install, hd, Except.map, Except.bind, Bind.bind, pure,
      Except.pure]

/-- Claim C1 (amended): for every requested package with a queried policy,
provided the reported installed version is not the literal wildcard string
"*", `pkgs_to_install` selects the package for installation iff its
installed version fails to satisfy the constraint while a satisfying
candidate exists: with constraint "any" it is skipped when installed
equals candidate, with an exact constraint it is skipped when installed
equals the constraint, it is fatal when no candidate exists, fatal when
an exact constraint differs from the candidate, and otherwise the package
is marked for installation. -/
theorem pkgs_to_install_matches_spec (p req : String) (inst cand : Option String)
    (h : inst ≠ some "*") :
    pkgs_to_install (fun _ => req) [(p, some ⟨inst, cand⟩)] =
      c1Interp p req cand (c1Expected req inst cand) := by
  rw [pkgs_to_install_singleton]
  unfold pkgDecision c1Expected
  by_cases hreq : req = "*"
  · subst hreq
    rcases cand with _ | cv
    · rcases inst with _ | iv
      · simp [c1Interp, Except.map]
      · have hiv : iv ≠ "*" := fun hh => h (by rw [hh])
        simp [c1Interp, Except.map, hiv]
    · rcases inst with _ | iv
      · simp [c1Interp, Except.map]
      · have hiv : iv ≠ "*" := fun hh => h (by rw [hh])
        by_cases hic : iv = cv
        · subst hic
          simp [c1Interp, Except.map, hiv]
        · simp [c1Interp, Except.map, hiv, hic, Ne.symm hic]
  · rcases inst with _ | iv
    · rcases cand with _ | cv
      · simp [c1Interp, Except.map, hreq]
      · by_cases hcr : cv = req
        · subst hcr
          simp [c1Interp, Except.map, hreq]
        · simp [c1Interp, Except.map, hreq, hcr]
    · by_cases hinst : iv = req
      · subst hinst
        simp [c1Interp, Except.map, hreq]
      · rcases cand with _ | cv
        · simp [c1Interp, Except.map, hreq, hinst]
        · by_cases hcr : cv = req
          · subst hcr
            simp [c1Interp, Except.map, hreq, hinst]
          · simp [c1Interp, Except.map, hreq, hinst, hcr]

/-- Witness for claim C1's theorem at a concrete input: an exact
constraint with a matching candidate and no installed version is marked
for installation. -/
theorem pkgs_to_install_matches_spec_witness :
    pkgs_to_install (fun _ => "1.0") [("pkg", some ⟨none, some "1.0"⟩)] =
      c1Interp "pkg" "1.0" (some "1.0") (c1Expected "1.0" none (some "1.0")) :=
  pkgs_to_install_matches_spec "pkg" "1.0" none (some "1.0") (by decide)

/-- Counterexample to claim C1 as stated: when the installed version is
the literal string "*" and the constraint is "any", the code skips the
package (the `req == installed` branch fires) even though a different
candidate exists, while the spec's rule would select it for
installation. -/
theorem pkgs_to_install_c1_counterexample :
    pkgs_to_install (fun _ => "*") [("pkg", some ⟨some "*", some "1.0"⟩)] ≠
      c1Interp "pkg" "*" (some "1.0") (c1Expected "*" (some "*") (some "1.0")) := by
  intro hc
  rw [show pkgs_to_install (fun _ => "*")
        [("pkg", some ⟨some "*", some "1.0"⟩)] = Except.ok [] from rfl] at hc
  rw [show c1Interp "pkg" "*" (some "1.0")
        (c1Expected "*" (some "*") (some "1.0")) = Except.ok ["pkg"] from rfl] at hc
  simp at hc

/-- Host package state: what dpkg reports as installed and what the
repositories offer as candidate versions. -/
structure Host where
  installed : String → Option String
  candidate : String → Option String

/-- Embedding of `apt_pkg_policy` (repo.py lines 39-73) over the host
state: the policy query returns, for every requested name, the installed
and candidate versions; well-formed apt-cache output is assumed, so no
entry is `none`. -/
def apt_pkg_policy (st : Host) (names : List String) :
    List (String × Option PkgVer) :=
  names.map fun p => (p, some ⟨st.installed p, st.candidate p⟩)

/-- Lookup into the requested dict, as `requested[p]` in Python. -/
def reqLookup (requested : List (String × String)) (p : String) : String :=
  (requested.lookup p).getD ""

/-- Embedding of `install_packages` (repo.py lines 186-205).  The actual
`apt-get install` run is external and is modelled as a state transformer
`aptInstall` returning the new host state together with the dpkg
before/after diff of newly installed packages (`apt_install`, repo.py
lines 131-183).  When nothing needs installing the Python function falls
through without a return statement and yields `None`; the result type is
therefore `Option (List String)`. -/
def install_packages (aptInstall : Host → List String → Host × List String)
    (st : Host) (requested : List (String × String)) :
    Except SPError (Option (List String)) × Host :=
  match pkgs_to_install (reqLookup requested)
      (apt_pkg_policy st (requested.map Prod.fst)) with
  | .error e => (.error e, st)
  | .ok [] => (.ok none, st)
  | .ok to_install =>
    let (st2, newly) := aptInstall st to_install
    (.ok (some newly), st2)

/-- Claim C2 (amended): when every requested package already satisfies its
constraint (as on a second call with the same request map and unchanged
host state), `install_packages` installs nothing, leaves the host state
unchanged, and returns Python `None` — not an empty list — as its
"newly installed" result. -/
theorem install_packages_idempotent
    (aptInstall : Host → List String → Host × List String)
    (st : Host) (requested : List (String × String))
    (h : pkgs_to_install (reqLookup requested)
          (apt_pkg_policy st (requested.map Prod.fst)) = .ok []) :
    install_packages aptInstall st requested = (.ok none, st) := by
  unfold install_packages
  rw [h]

/-- Host state used for the claim C2 concrete scenario: package "a" is
installed at version "1", which is also the candidate. -/
def c2Host : Host :=
  { installed := fun p => if p = "a" then some "1" else none
    candidate := fun p => if p = "a" then some "1" else none }

/-- Degenerate apt action for the C2 scenario (never reached). -/
def c2Apt : Host → List String → Host × List String := fun st _ => (st, [])

/-- Witness for claim C2's theorem: with package "a" already installed at
the candidate version, the call installs nothing and returns `none`. -/
theorem install_packages_idempotent_witness :
    install_packages c2Apt c2Host [("a", "*")] = (.ok none, c2Host) :=
  install_packages_idempotent c2Apt c2Host [("a", "*")] (by rfl)

/-- Counterexample to claim C2 as stated: on the repeated call the Python
function returns `None` (no return statement is reached), which is not
the empty "newly installed" list the claim describes. -/
theorem install_packages_c2_counterexample :
    (install_packages c2Apt c2Host [("a", "*")]).1 = .ok none ∧
      (install_packages c2Apt c2Host [("a", "*")]).1 ≠ .ok (some []) := by
  refine ⟨rfl, ?_⟩
  intro hc
  rw [show (install_packages c2Apt c2Host [("a", "*")]).1 = Except.ok none
        from rfl] at hc
  simp at hc

/-! ## Text-configuration patcher: spcharms/confighelpers/network.py

The patcher `fixup_interfaces_file` is embedded on the content of a single
file, given as the list of its lines without trailing newlines.  The
recursive processing of `source`d files only rewrites other files and
emits nothing into the file at hand, so it does not appear in the
single-file stream transformation. -/

/-- Python `str.split()` with no arguments, over a list of characters:
whitespace runs separate words and empty words are dropped.  The `cur`
accumulator holds the current word reversed. -/
def splitWords : List Char → List Char → List String
  | [], cur => if cur.isEmpty then [] else [String.mk cur.reverse]
  | c :: rest, cur =>
    if c.isWhitespace then
      (if cur.isEmpty then [] else [String.mk cur.reverse]) ++ splitWords rest []
    else
      splitWords rest (c :: cur)

/-- The word list of a line, as Python `stripped.split()`. -/
def pyWords (s : String) : List String :=
  splitWords s.data []

/-- Python `str.strip()`: drop leading and trailing whitespace. -/
def pyStrip (s : String) : String :=
  String.mk (((s.data.dropWhile Char.isWhitespace).reverse.dropWhile
    Char.isWhitespace).reverse)

/-- Embedding of `is_new_stanza` (network.py lines 50-57): does a line
starting with this word open a new stanza? -/
def is_new_stanza (s : String) : Bool :=
  s == "iface" || s == "mapping" || s == "auto" || s == "source" ||
    s == "source-directory" || "allow-".data.isPrefixOf s.data

/-- The "a separate conditional, since we may fall through" block of
`fixup_interfaces_file` (network.py lines 90-101): with no stanza open,
a line `iface <w2> ...` whose interface is in `data` opens that stanza
and loads its required lines; `source` and `source-directory` lines
only trigger recursion into other files. -/
def openState (data : String → Option (List String))
    (st1 : Bool × List String) (w : String) (ws : List String) :
    Bool × List String :=
  if st1.1 then st1
  else
    match ws with
    | [] => st1
    | w2 :: _ =>
      if w = "iface" then
        match data w2 with
        | some reqs => (true, reqs)
        | none => st1
      else st1

/-- One iteration of the read loop of `fixup_interfaces_file` (network.py
lines 68-101) on line `ln` from the state (in_iface, left): the lines
printed to the temporary file, the contribution to the `updated` flag,
and the new state.  When a stanza is closed the now dead `left` value is
reset to [] (the original keeps it, but never reads it again before the
next `iface` line overwrites it). -/
def fixupStep (data : String → Option (List String))
    (st : Bool × List String) (ln : String) :
    List String × Bool × (Bool × List String) :=
  let stripped := pyStrip ln
  match pyWords stripped with
  | [] => ([ln], false, st)
  | w :: ws =>
    if st.1 then
      if is_new_stanza w then
        (st.2 ++ [ln], !st.2.isEmpty, openState data (false, []) w ws)
      else
        ([ln], false, (true, st.2.filter (fun s => s ≠ stripped)))
    else ([ln], false, openState data st w ws)

/-- The read loop of `fixup_interfaces_file` over the remaining lines:
emitted lines, accumulated `updated` flag, final state. -/
def fixupRun (data : String → Option (List String))
    (st : Bool × List String) : List String → List String × Bool × (Bool × List String)
  | [] => ([], false, st)
  | ln :: rest =>
    ((fixupStep data st ln).1 ++ (fixupRun data (fixupStep data st ln).2.2 rest).1,
     (fixupStep data st ln).2.1 || (fixupRun data (fixupStep data st ln).2.2 rest).2.1,
     (fixupRun data (fixupStep data st ln).2.2 rest).2.2)

/-- Embedding of `fixup_interfaces_file` (network.py lines 34-117) on one
file's content: the content written to the temporary file and the
`updated` flag; `txn.install` replaces the file only when the flag is
true (lines 108-114).  Lines 103-106: required lines still missing from
a stanza left open at end of file are appended. -/
def fixup_interfaces_file (data : String → Option (List String))
    (lns : List String) : List String × Bool :=
  if (fixupRun data (false, []) lns).2.2.1 then
    ((fixupRun data (false, []) lns).1 ++ (fixupRun data (false, []) lns).2.2.2,
     (fixupRun data (false, []) lns).2.1 ||
       !(fixupRun data (false, []) lns).2.2.2.isEmpty)
  else
    ((fixupRun data (false, []) lns).1, (fixupRun data (false, []) lns).2.1)

/-- A required directive line the patcher can recognise again after
appending it: its own stripped form, at least one word, and its first
word does not open a new stanza. -/
def wfLineB (r : String) : Bool :=
  (pyStrip r == r) &&
    (match pyWords r with
     | [] => false
     | w :: _ => !is_new_stanza w)

/-- All required lines of all requested interfaces are recognisable. -/
def wfData (data : String → Option (List String)) : Prop :=
  ∀ i reqs, data i = some reqs → ∀ r ∈ reqs, wfLineB r = true

/-- Repeatedly remove from `A` everything equal to an element of `L`, in
the order the patcher filters its `left` list. -/
def filterOut (A L : List String) : List String :=
  L.foldl (fun acc r => acc.filter (fun s => s ≠ r)) A

/-- A recognisable line is its own stripped form. -/
theorem wfLineB_strip {r : String} (h : wfLineB r = true) : pyStrip r = r := by
  unfold wfLineB at h
  rcases Bool.and_eq_true_iff.mp h with ⟨h1, _⟩
  exact eq_of_beq h1

/-- A recognisable line has a first word and it opens no stanza. -/
theorem wfLineB_words {r : String} (h : wfLineB r = true) :
    ∃ w ws, pyWords r = w :: ws ∧ is_new_stanza w = false := by
  unfold wfLineB at h
  rcases Bool.and_eq_true_iff.mp h with ⟨_, h2⟩
  cases hw : pyWords r with
  | nil => rw [hw] at h2; cases h2
  | cons w ws =>
    rw [hw] at h2
    exact ⟨w, ws, rfl, by simpa using h2⟩

/-- Membership in `filterOut`. -/
theorem mem_filterOut {x : String} :
    ∀ (L A : List String), x ∈ filterOut A L ↔ x ∈ A ∧ x ∉ L := by
  intro L
  induction L with
  | nil => intro A; simp [filterOut]
  | cons r L ih =>
    intro A
    show x ∈ filterOut (A.filter (fun s => s ≠ r)) L ↔ _
    rw [ih]
    simp only [List.mem_filter, decide_eq_true_eq, List.mem_cons]
    constructor
    · rintro ⟨⟨hA, hne⟩, hnL⟩
      exact ⟨hA, by rintro (rfl | hh) <;> [exact hne rfl; exact hnL hh]⟩
    · rintro ⟨hA, hn⟩
      exact ⟨⟨hA, fun hh => hn (Or.inl hh)⟩, fun hh => hn (Or.inr hh)⟩

/-- Filtering a list by all of its own elements leaves nothing. -/
theorem filterOut_self (L : List String) : filterOut L L = [] := by
  rw [List.eq_nil_iff_forall_not_mem]
  intro x hx
  rcases (mem_filterOut L L).mp hx with ⟨h1, h2⟩
  exact h2 h1

/-- The read loop splits over list concatenation. -/
theorem fixupRun_append (data : String → Option (List String)) :
    ∀ (xs : List String) (st : Bool × List String) (ys : List String),
      fixupRun data st (xs ++ ys) =
        ((fixupRun data st xs).1 ++
           (fixupRun data (fixupRun data st xs).2.2 ys).1,
         (fixupRun data st xs).2.1 ||
           (fixupRun data (fixupRun data st xs).2.2 ys).2.1,
         (fixupRun data (fixupRun data st xs).2.2 ys).2.2) := by
  intro xs
  induction xs with
  | nil => intro st ys; simp [fixupRun]
  | cons ln rest ih =>
    intro st ys
    simp only [List.cons_append, fixupRun, List.append_eq,
      ih (fixupStep data st ln).2.2 ys, List.append_assoc, Bool.or_assoc]

/-- Inside a stanza, a list of recognisable lines is replayed verbatim:
each line just strikes itself off the remaining-required list. -/
theorem fixupRun_absorb (data : String → Option (List String)) :
    ∀ (L A : List String), (∀ r ∈ L, wfLineB r = true) →
      fixupRun data (true, A) L = (L, false, (true, filterOut A L)) := by
  intro L
  induction L with
  | nil => intro A _; simp [fixupRun, filterOut]
  | cons r L ih =>
    intro A hwf
    have hr := hwf r (List.mem_cons_self r L)
    rcases wfLineB_words hr with ⟨w, ws, hw, hns⟩
    have hstep : fixupStep data (true, A) r =
        ([r], false, (true, A.filter (fun s => s ≠ r))) := by
      unfold fixupStep
      rw [wfLineB_strip hr]
      simp only [hw, hns]
      simp
    have hrest := ih (A.filter (fun s => s ≠ r))
      (fun x hx => hwf x (List.mem_cons_of_mem r hx))
    show ((fixupStep data (true, A) r).1 ++ _, _, _) = _
    rw [hstep]
    simp only [hrest]
    exact rfl

/-- Step on a blank line: printed verbatim, state untouched. -/
theorem fixupStep_blank {ln : String} (data : String → Option (List String))
    (st : Bool × List String) (hw : pyWords (pyStrip ln) = []) :
    fixupStep data st ln = ([ln], false, st) := by
  unfold fixupStep
  simp only [hw]

/-- Step inside a stanza on a non-stanza-starting line: printed verbatim,
the line is struck off the remaining required lines. -/
theorem fixupStep_inside {ln w : String} {ws : List String}
    (data : String → Option (List String)) (A : List String)
    (hw : pyWords (pyStrip ln) = w :: ws) (hns : is_new_stanza w = false) :
    fixupStep data (true, A) ln =
      ([ln], false, (true, A.filter (fun s => s ≠ pyStrip ln))) := by
  unfold fixupStep
  simp only [hw, hns]
  simp

/-- Step inside a stanza on a stanza-starting line: the missing required
lines are appended before the line, the stanza closes and the line may
immediately open a requested one. -/
theorem fixupStep_starter {ln w : String} {ws : List String}
    (data : String → Option (List String)) (A : List String)
    (hw : pyWords (pyStrip ln) = w :: ws) (hs : is_new_stanza w = true) :
    fixupStep data (true, A) ln =
      (A ++ [ln], !A.isEmpty, openState data (false, []) w ws) := by
  unfold fixupStep
  simp only [hw, hs]
  simp

/-- Step outside any stanza: printed verbatim, the line may open a
requested stanza. -/
theorem fixupStep_outside {ln w : String} {ws : List String}
    (data : String → Option (List String)) (A : List String)
    (hw : pyWords (pyStrip ln) = w :: ws) :
    fixupStep data (false, A) ln = ([ln], false, openState data (false, A) w ws) := by
  unfold fixupStep
  simp only [hw]
  simp

/-- Opening a stanza only ever loads required lines taken from `data`,
so recognisability of the pending lines is preserved. -/
theorem openState_inv {data : String → Option (List String)}
    (hdata : wfData data) (st1 : Bool × List String)
    (hst : st1.1 = true → ∀ r ∈ st1.2, wfLineB r = true)
    (w : String) (ws : List String) :
    (openState data st1 w ws).1 = true →
      ∀ r ∈ (openState data st1 w ws).2, wfLineB r = true := by
  unfold openState
  by_cases h1 : st1.1
  · simpa [h1] using hst
  · simp only [h1, if_false, Bool.false_eq_true]
    cases ws with
    | nil => simpa using hst
    | cons w2 rest =>
      by_cases hif : w = "iface"
      · cases hd : data w2 with
        | none => simpa [hif, hd] using hst
        | some reqs =>
          simp only [hif, if_true, hd]
          intro _ r hr
          exact hdata w2 reqs hd r hr
      · simpa [hif] using hst

/-- Replaying the lines one step emitted, from the same state, reproduces
them verbatim with no further update and reaches the same state; pending
required lines stay recognisable. -/
theorem fixupStep_replay (data : String → Option (List String))
    (hdata : wfData data) (b : Bool) (left : List String)
    (hleft : b = true → ∀ r ∈ left, wfLineB r = true) (ln : String) :
    fixupRun data (b, left) (fixupStep data (b, left) ln).1 =
      ((fixupStep data (b, left) ln).1, false,
        (fixupStep data (b, left) ln).2.2) ∧
    ((fixupStep data (b, left) ln).2.2.1 = true →
      ∀ r ∈ (fixupStep data (b, left) ln).2.2.2, wfLineB r = true) := by
  cases hw : pyWords (pyStrip ln) with
  | nil =>
    rw [fixupStep_blank data (b, left) hw]
    refine ⟨?_, by simpa using hleft⟩
    simp [fixupRun, fixupStep_blank data (b, left) hw]
  | cons w ws =>
    cases b with
    | false =>
      rw [fixupStep_outside data left hw]
      refine ⟨?_, ?_⟩
      · simp [fixupRun, fixupStep_outside data left hw]
      · exact openState_inv hdata (false, left) (by intro h; cases h) w ws
    | true =>
      cases hs : is_new_stanza w with
      | false =>
        rw [fixupStep_inside data left hw hs]
        refine ⟨?_, ?_⟩
        · simp [fixupRun, fixupStep_inside data left hw hs]
        · intro _ r hr
          exact hleft rfl r (List.mem_of_mem_filter hr)
      | true =>
        rw [fixupStep_starter data left hw hs]
        have hwfl := hleft rfl
        refine ⟨?_, ?_⟩
        · rw [fixupRun_append data left (true, left) [ln],
            fixupRun_absorb data left left hwfl, filterOut_self]
          simp [fixupRun, fixupStep_starter data ([] : List String) hw hs]
        · exact openState_inv hdata (false, []) (by intro h; cases h) w ws

/-- Replaying the whole emitted output from the starting state reproduces
it verbatim, with the `updated` flag false, reaching the same final
state; pending required lines of the final state stay recognisable. -/
theorem fixupRun_stable (data : String → Option (List String))
    (hdata : wfData data) :
    ∀ (lns left : List String) (b : Bool),
      (b = true → ∀ r ∈ left, wfLineB r = true) →
      fixupRun data (b, left) (fixupRun data (b, left) lns).1 =
        ((fixupRun data (b, left) lns).1, false,
          (fixupRun data (b, left) lns).2.2) ∧
      ((fixupRun data (b, left) lns).2.2.1 = true →
        ∀ r ∈ (fixupRun data (b, left) lns).2.2.2, wfLineB r = true) := by
  intro lns
  induction lns with
  | nil =>
    intro left b hleft
    exact ⟨by simp [fixupRun], by simpa [fixupRun] using hleft⟩
  | cons ln rest ih =>
    intro left b hleft
    obtain ⟨hrep, hinv1⟩ := fixupStep_replay data hdata b left hleft ln
    obtain ⟨b1, l1, hs1⟩ :
        ∃ b1 l1, (fixupStep data (b, left) ln).2.2 = (b1, l1) := ⟨_, _, rfl⟩
    rw [hs1] at hrep hinv1
    obtain ⟨hrest, hinv2⟩ := ih l1 b1 (by simpa using hinv1)
    refine ⟨?_, ?_⟩
    · show fixupRun data (b, left)
        ((fixupStep data (b, left) ln).1 ++
          (fixupRun data (fixupStep data (b, left) ln).2.2 rest).1) = _
      rw [hs1, fixupRun_append data (fixupStep data (b, left) ln).1 (b, left)
        (fixupRun data (b1, l1) rest).1, hrep]
      show ((fixupStep data (b, left) ln).1 ++
          (fixupRun data (b1, l1) (fixupRun data (b1, l1) rest).1).1, _, _) = _
      rw [hrest]
      show (_, false || false, _) = _
      simp only [fixupRun, hs1, Bool.or_false]
    · have heq : (fixupRun data (b, left) (ln :: rest)).2.2 =
          (fixupRun data (b1, l1) rest).2.2 := by
        show (fixupRun data (fixupStep data (b, left) ln).2.2 rest).2.2 = _
        rw [hs1]
      rw [heq]
      exact hinv2

/-- Every step prints some (possibly empty) block of appended required
lines followed by the input line itself, and reports an update exactly
when that block is non-empty. -/
theorem fixupStep_shape (data : String → Option (List String))
    (st : Bool × List String) (ln : String) :
    ∃ pre, (fixupStep data st ln).1 = pre ++ [ln] ∧
      ((fixupStep data st ln).2.1 = true ↔ pre ≠ []) := by
  rcases st with ⟨b, A⟩
  cases hw : pyWords (pyStrip ln) with
  | nil => exact ⟨[], by simp [fixupStep_blank data (b, A) hw]⟩
  | cons w ws =>
    cases b with
    | false => exact ⟨[], by simp [fixupStep_outside data A hw]⟩
    | true =>
      cases hs : is_new_stanza w with
      | false => exact ⟨[], by simp [fixupStep_inside data A hw hs]⟩
      | true =>
        refine ⟨A, by simp [fixupStep_starter data A hw hs], ?_⟩
        rw [fixupStep_starter data A hw hs]
        cases A <;> simp

/-- If the loop never reported an update, the output is the input. -/
theorem fixupRun_flag_false (data : String → Option (List String)) :
    ∀ (lns : List String) (st : Bool × List String),
      (fixupRun data st lns).2.1 = false → (fixupRun data st lns).1 = lns := by
  intro lns
  induction lns with
  | nil => intro st _; rfl
  | cons ln rest ih =>
    intro st hf
    obtain ⟨pre, hpre, hupd⟩ := fixupStep_shape data st ln
    have hf' : ((fixupStep data st ln).2.1 ||
        (fixupRun data (fixupStep data st ln).2.2 rest).2.1) = false := hf
    rw [Bool.or_eq_false_iff] at hf'
    obtain ⟨h1, h2⟩ := hf'
    have hpe : pre = [] := by
      by_contra hne
      rw [hupd.mpr hne] at h1
      cases h1
    show (fixupStep data st ln).1 ++ _ = _
    rw [hpre, hpe, ih (fixupStep data st ln).2.2 h2]
    rfl

/-- Every input line is reproduced, unmodified and in order, in the
output of the loop. -/
theorem fixupRun_sublist (data : String → Option (List String)) :
    ∀ (lns : List String) (st : Bool × List String),
      lns.Sublist (fixupRun data st lns).1 := by
  intro lns
  induction lns with
  | nil => intro st; exact List.Sublist.refl []
  | cons ln rest ih =>
    intro st
    obtain ⟨pre, hpre, _⟩ := fixupStep_shape data st ln
    show (ln :: rest).Sublist ((fixupStep data st ln).1 ++ _)
    rw [hpre, List.append_assoc]
    exact List.Sublist.trans
      (List.Sublist.cons₂ ln (ih (fixupStep data st ln).2.2))
      (List.sublist_append_right pre _)

/-- If the loop reported an update, the output is strictly longer than
the input. -/
theorem fixupRun_flag_true (data : String → Option (List String)) :
    ∀ (lns : List String) (st : Bool × List String),
      (fixupRun data st lns).2.1 = true →
        lns.length < (fixupRun data st lns).1.length := by
  intro lns
  induction lns with
  | nil => intro st h; cases h
  | cons ln rest ih =>
    intro st hf
    obtain ⟨pre, hpre, hupd⟩ := fixupStep_shape data st ln
    have hsub := (fixupRun_sublist data rest (fixupStep data st ln).2.2).length_le
    have hlen : (fixupRun data st (ln :: rest)).1.length =
        pre.length + 1 + (fixupRun data (fixupStep data st ln).2.2 rest).1.length := by
      show ((fixupStep data st ln).1 ++ _).length = _
      rw [hpre]
      simp
      omega
    have hor : (fixupStep data st ln).2.1 = true ∨
        (fixupRun data (fixupStep data st ln).2.2 rest).2.1 = true := by
      revert hf
      show ((fixupStep data st ln).2.1 || _) = true → _
      simp
    rw [hlen]
    simp only [List.length_cons]
    rcases hor with h1 | h2
    · have : pre ≠ [] := hupd.mp h1
      have : 1 ≤ pre.length := by
        cases pre
        · exact absurd rfl this
        · simp
      omega
    · have := ih (fixupStep data st ln).2.2 h2
      omega

/-- Wrapper-level: no reported change means the file content is kept. -/
theorem fixupFile_flag_false (data : String → Option (List String))
    (lns : List String) (h : (fixup_interfaces_file data lns).2 = false) :
    (fixup_interfaces_file data lns).1 = lns := by
  unfold fixup_interfaces_file at h ⊢
  by_cases hb : (fixupRun data (false, []) lns).2.2.1 = true
  · rw [if_pos hb] at h ⊢
    simp only at h ⊢
    rw [Bool.or_eq_false_iff] at h
    obtain ⟨h1, h2⟩ := h
    have hL : (fixupRun data (false, []) lns).2.2.2 = [] := by
      rcases hh : (fixupRun data (false, []) lns).2.2.2 with _ | ⟨x, xs⟩
      · rfl
      · rw [hh] at h2; cases h2
    rw [hL, fixupRun_flag_false data lns (false, []) h1, List.append_nil]
  · rw [if_neg hb] at h ⊢
    exact fixupRun_flag_false data lns (false, []) h

/-- Wrapper-level: every input line is reproduced in order. -/
theorem fixupFile_sublist (data : String → Option (List String))
    (lns : List String) : lns.Sublist (fixup_interfaces_file data lns).1 := by
  unfold fixup_interfaces_file
  by_cases hb : (fixupRun data (false, []) lns).2.2.1 = true
  · rw [if_pos hb]
    exact List.Sublist.trans (fixupRun_sublist data lns (false, []))
      (List.sublist_append_left _ _)
  · rw [if_neg hb]
    exact fixupRun_sublist data lns (false, [])

/-- Wrapper-level: a reported change strictly lengthens the content. -/
theorem fixupFile_flag_true (data : String → Option (List String))
    (lns : List String) (h : (fixup_interfaces_file data lns).2 = true) :
    lns.length < (fixup_interfaces_file data lns).1.length := by
  unfold fixup_interfaces_file at h ⊢
  by_cases hb : (fixupRun data (false, []) lns).2.2.1 = true
  · rw [if_pos hb] at h ⊢
    simp only at h ⊢
    have hsub := (fixupRun_sublist data lns (false, [])).length_le
    rw [Bool.or_eq_true_iff] at h
    rw [List.length_append]
    rcases h with h1 | h2
    · have := fixupRun_flag_true data lns (false, []) h1
      omega
    · have hL : (fixupRun data (false, []) lns).2.2.2 ≠ [] := by
        intro hh
        rw [hh] at h2
        cases h2
      have : 1 ≤ (fixupRun data (false, []) lns).2.2.2.length := by
        rcases hq : (fixupRun data (false, []) lns).2.2.2 with _ | ⟨x, xs⟩
        · exact absurd hq hL
        · simp
      omega
  · rw [if_neg hb] at h ⊢
    exact fixupRun_flag_true data lns (false, []) h

/-- Claim C6: `fixup_interfaces_file` hands the file to the transactional
installer only when `updated` is true, which happens exactly when at
least one required line was appended (unchanged content when false, a
strictly longer content when true), and every input line — in particular
every line outside any requested stanza — reappears unmodified and in
order in the output. -/
theorem fixup_interfaces_file_frame (data : String → Option (List String))
    (lns : List String) :
    ((fixup_interfaces_file data lns).2 = false →
      (fixup_interfaces_file data lns).1 = lns) ∧
    lns.Sublist (fixup_interfaces_file data lns).1 ∧
    ((fixup_interfaces_file data lns).2 = true →
      lns.length < (fixup_interfaces_file data lns).1.length) :=
  ⟨fixupFile_flag_false data lns, fixupFile_sublist data lns,
    fixupFile_flag_true data lns⟩

/-- Witness for claim C6's theorem: a file with no requested interfaces
is passed through unchanged, and its lines are reproduced in order. -/
theorem fixup_interfaces_file_frame_witness :
    (fixup_interfaces_file (fun _ => none) ["x y"]).1 = ["x y"] ∧
      ["x y"].Sublist (fixup_interfaces_file (fun _ => none) ["x y"]).1 :=
  ⟨(fixup_interfaces_file_frame (fun _ => none) ["x y"]).1 (by decide),
    (fixup_interfaces_file_frame (fun _ => none) ["x y"]).2.1⟩

/-- Claim C5 (amended): provided every required line is its own stripped
form, non-blank, and does not begin with a stanza-starting keyword,
applying `fixup_interfaces_file` twice with the same required-lines map
yields a changed (`updated`) result on the first application exactly when
some required line was missing (the content actually changed), an
unchanged result on the second application, and the second application's
content is identical to the first's. -/
theorem fixup_interfaces_file_idempotent (data : String → Option (List String))
    (lns : List String) (hdata : wfData data) :
    fixup_interfaces_file data (fixup_interfaces_file data lns).1 =
      ((fixup_interfaces_file data lns).1, false) ∧
    ((fixup_interfaces_file data lns).2 = true ↔
      (fixup_interfaces_file data lns).1 ≠ lns) := by
  constructor
  · obtain ⟨hstab, hinv⟩ :=
      fixupRun_stable data hdata lns [] false (fun h => by cases h)
    obtain ⟨E, u, b2, L, hR⟩ :
        ∃ E u b2 L, fixupRun data (false, []) lns = (E, u, (b2, L)) :=
      ⟨_, _, _, _, rfl⟩
    rw [hR] at hstab hinv
    simp only at hstab hinv
    unfold fixup_interfaces_file
    rw [hR]
    cases b2 with
    | false =>
      simp only [Bool.false_eq_true, if_false]
      rw [hstab]
      simp
    | true =>
      simp only [if_true]
      have habs := fixupRun_absorb data L L (hinv rfl)
      rw [filterOut_self] at habs
      have hrun2 : fixupRun data (false, []) (E ++ L) =
          (E ++ L, false, (true, [])) := by
        rw [fixupRun_append data E (false, []) L, hstab]
        dsimp only
        rw [habs]
        rfl
      rw [hrun2]
      simp
  · constructor
    · intro hu heq
      have := fixupFile_flag_true data lns hu
      rw [heq] at this
      omega
    · intro hne
      cases hu : (fixup_interfaces_file data lns).2 with
      | false => exact absurd (fixupFile_flag_false data lns hu) hne
      | true => rfl

/-- Interface data for the concrete C5 scenarios: interface "e0" requires
one post-up line. -/
def c5Data : String → Option (List String) :=
  fun i => if i = "e0" then some ["post-up m"] else none

/-- The C5 data is recognisable: its single required line is stripped,
non-blank and does not start a stanza. -/
theorem c5Data_wf : wfData c5Data := by
  intro i reqs h r hr
  unfold c5Data at h
  by_cases hi : i = "e0"
  · rw [if_pos hi] at h
    injection h with h2
    subst h2
    simp only [List.mem_singleton] at hr
    subst hr
    decide
  · rw [if_neg hi] at h
    cases h

/-- Witness for claim C5's theorem: the spec's example scenario — an
`iface e0` stanza missing its post-up line gets it appended on the first
application, and the second application leaves the result untouched. -/
theorem fixup_interfaces_file_idempotent_witness :
    fixup_interfaces_file c5Data
        (fixup_interfaces_file c5Data ["iface e0 inet static"]).1 =
      ((fixup_interfaces_file c5Data ["iface e0 inet static"]).1, false) ∧
    ((fixup_interfaces_file c5Data ["iface e0 inet static"]).2 = true ↔
      (fixup_interfaces_file c5Data ["iface e0 inet static"]).1 ≠
        ["iface e0 inet static"]) :=
  fixup_interfaces_file_idempotent c5Data ["iface e0 inet static"] c5Data_wf

/-- Interface data refuting claim C5 as stated: the required line itself
begins with the stanza-starting keyword `auto`. -/
def c5BadData : String → Option (List String) :=
  fun i => if i = "e0" then some ["auto e0"] else none

/-- Counterexample to claim C5 as stated: with required line "auto e0"
for interface "e0" (a line starting with a stanza keyword), the second
application of `fixup_interfaces_file` reports `updated = true` again and
appends the line a second time, because the appended line closes the
stanza on re-reading instead of being struck off the required list. -/
theorem fixup_c5_counterexample :
    (fixup_interfaces_file c5BadData ["iface e0 inet static"]).2 = true ∧
    (fixup_interfaces_file c5BadData
        (fixup_interfaces_file c5BadData ["iface e0 inet static"]).1).2 = true := by
  constructor <;> decide

/-! ## Package ownership record: record_packages / unrecord_packages
(repo.py lines 232-375)

The on-disk JSON record
`{"charms": {charm: {"layers": {layer: {"packages": [...]}}}},
  "packages": {"remove": [...]}}`
is embedded with dictionaries as association lists and the package lists
as finite sets (the code manipulates them through Python sets).  The
external dpkg dry-run/purge calls are modelled by oracles indexed by the
iteration round of the removal loop. -/

/-- Replace the first binding of `k` or append a new one, as assignment
into a Python dict (keys are unique in the records we build). -/
def updateA {β : Type} : List (String × β) → String → β → List (String × β)
  | [], k, v => [(k, v)]
  | (k', v') :: rest, k, v =>
    if k' = k then (k, v) :: rest else (k', v') :: updateA rest k v

/-- Remove the first binding of `k`, as Python `del`. -/
def eraseA {β : Type} : List (String × β) → String → List (String × β)
  | [], _ => []
  | (k', v') :: rest, k =>
    if k' = k then rest else (k', v') :: eraseA rest k

/-- The ownership record kept in /var/lib/storpool/install-charms.json:
per-charm, per-layer owned package sets, and the global removal
candidate set. -/
structure OwnRecord where
  charms : List (String × List (String × Finset String))
  remove : Finset String

/-- The union of every layer's owned package set across all charms, as
iterated by the double loop in unrecord_packages (repo.py lines
320-322). -/
def unionLayers (charms : List (String × List (String × Finset String))) :
    Finset String :=
  charms.foldr (fun c acc => c.2.foldr (fun l a => l.2 ∪ a) acc) ∅

/-- Embedding of `record_packages` (repo.py lines 232-277): merge `names`
into the layer's owned set and drop all of that set from the removal
candidates. -/
def record_packages (charm layer : String) (names : Finset String)
    (r : OwnRecord) : OwnRecord :=
  let layers := (r.charms.lookup charm).getD []
  let pset := (layers.lookup layer).getD ∅
  let cset := pset ∪ names
  { charms := updateA r.charms charm (updateA layers layer cset)
    remove := r.remove \ cset }

/-- The special-cased package pair of repo.py lines 330-343. -/
def specialPair : Finset String :=
  {"libwww-perl", "liblwp-protocol-https-perl"}

/-- One pass of the removal loop (repo.py lines 327-364): the set of
candidates actually purged this round — the special pair when wholly
present and its joint dry run succeeds, plus every candidate whose own
dry run succeeds.  `dpair` and `dry` are the dry-run outcomes reported
by dpkg in the given round. -/
def removalPass (dpair : Nat → Bool) (dry : Nat → String → Bool)
    (round : Nat) (tr : Finset String) : Finset String :=
  (if specialPair ⊆ tr ∧ dpair round then specialPair else ∅) ∪
    tr.filter (fun p => dry round p)

/-- A pass only ever removes current candidates. -/
theorem removalPass_subset (dpair : Nat → Bool) (dry : Nat → String → Bool)
    (round : Nat) (tr : Finset String) :
    removalPass dpair dry round tr ⊆ tr := by
  unfold removalPass
  intro x hx
  rcases Finset.mem_union.mp hx with hx | hx
  · by_cases hc : specialPair ⊆ tr ∧ dpair round = true
    · rw [if_pos hc] at hx
      exact hc.1 hx
    · rw [if_neg hc] at hx
      cases Finset.not_mem_empty x hx
  · exact Finset.mem_of_mem_filter x hx

/-- The `while True` removal loop (repo.py lines 327-364): repeat passes
until one removes nothing; returns the remaining candidate set, the
removed set, and the number of passes executed. -/
def removalLoop (dpair : Nat → Bool) (dry : Nat → String → Bool)
    (round : Nat) (tr removed : Finset String) :
    Finset String × Finset String × Nat :=
  if h : removalPass dpair dry round tr = ∅ then (tr, removed, 1)
  else
    have hlt : (tr \ removalPass dpair dry round tr).card < tr.card :=
      Finset.card_lt_card
        (Finset.sdiff_ssubset (removalPass_subset dpair dry round tr)
          (Finset.nonempty_iff_ne_empty.mpr h))
    match removalLoop dpair dry (round + 1)
        (tr \ removalPass dpair dry round tr)
        (removed ∪ removalPass dpair dry round tr) with
    | (a, b, n) => (a, b, n + 1)
termination_by tr.card

/-- The tail of `unrecord_packages` after the layer has been dropped
(repo.py lines 316-373): recompute the candidate set, run the removal
loop, and store the candidates that remained unremoved.  Returns the new
record and the set of packages actually purged. -/
def unrecordTail (charms2 : List (String × List (String × Finset String)))
    (remove packages : Finset String) (dpair : Nat → Bool)
    (dry : Nat → String → Bool) : OwnRecord × Finset String :=
  match removalLoop dpair dry 0
      ((remove ∪ packages) \ unionLayers charms2) ∅ with
  | (tr, removed, _) =>
    ({ charms := charms2, remove := tr \ removed }, removed)

/-- Embedding of `unrecord_packages` (repo.py lines 279-375) on a record
that was successfully read: delete the layer from its charm (and the
charm when it has no layers left), free its packages, and run the
removal machinery. -/
def unrecord_packages (charm layer : String) (dpair : Nat → Bool)
    (dry : Nat → String → Bool) (r : OwnRecord) : OwnRecord × Finset String :=
  match r.charms.lookup charm with
  | none => unrecordTail r.charms r.remove ∅ dpair dry
  | some layers =>
    match layers.lookup layer with
    | none => unrecordTail r.charms r.remove ∅ dpair dry
    | some pkgs =>
      let layers2 := eraseA layers layer
      unrecordTail
        (if layers2.isEmpty then eraseA r.charms charm
         else updateA r.charms charm layers2)
        r.remove pkgs dpair dry

/-- A call against the ownership record: either a layer records the
packages it installed or a layer is torn down (with the dry-run oracle
observed in that call). -/
inductive RepoOp where
  | record (charm layer : String) (names : Finset String)
  | unrecord (charm layer : String) (dpair : Nat → Bool)
      (dry : Nat → String → Bool)

/-- Apply one call to the record. -/
def applyOp (r : OwnRecord) : RepoOp → OwnRecord
  | .record charm layer names => record_packages charm layer names r
  | .unrecord charm layer dpair dry =>
    (unrecord_packages charm layer dpair dry r).1

/-- Run a sequence of calls starting from the empty ownership record
(the state of a freshly created install-charms.json). -/
def runOps (ops : List RepoOp) : OwnRecord :=
  ops.foldl applyOp { charms := [], remove := ∅ }

/-- The removal-candidate invariant of the ownership record: no removal
candidate is owned by any remaining layer. -/
def removeInv (r : OwnRecord) : Prop :=
  ∀ p ∈ r.remove, p ∉ unionLayers r.charms

/-- Membership in the fold over one charm's layers. -/
theorem mem_foldr_layers {x : String} :
    ∀ (layers : List (String × Finset String)) (acc : Finset String),
      x ∈ layers.foldr (fun l a => l.2 ∪ a) acc ↔
        (∃ l ∈ layers, x ∈ l.2) ∨ x ∈ acc := by
  intro layers
  induction layers with
  | nil => intro acc; simp
  | cons l ls ih =>
    intro acc
    simp only [List.foldr_cons, Finset.mem_union, ih, List.mem_cons]
    constructor
    · rintro (h | ⟨l', hl', hx⟩ | h)
      · exact Or.inl ⟨l, Or.inl rfl, h⟩
      · exact Or.inl ⟨l', Or.inr hl', hx⟩
      · exact Or.inr h
    · rintro (⟨l', hl' | hl', hx⟩ | h)
      · subst hl'; exact Or.inl hx
      · exact Or.inr (Or.inl ⟨l', hl', hx⟩)
      · exact Or.inr (Or.inr h)

/-- Membership in the union of all layers' owned sets. -/
theorem mem_unionLayers {x : String} :
    ∀ (charms : List (String × List (String × Finset String))),
      x ∈ unionLayers charms ↔ ∃ c ∈ charms, ∃ l ∈ c.2, x ∈ l.2 := by
  intro charms
  induction charms with
  | nil => simp [unionLayers]
  | cons c cs ih =>
    show x ∈ c.2.foldr (fun l a => l.2 ∪ a) (unionLayers cs) ↔ _
    rw [mem_foldr_layers, ih]
    simp only [List.mem_cons]
    constructor
    · rintro (⟨l, hl, hx⟩ | ⟨c', hc', hl⟩)
      · exact ⟨c, Or.inl rfl, l, hl, hx⟩
      · exact ⟨c', Or.inr hc', hl⟩
    · rintro ⟨c', hc' | hc', hl⟩
      · subst hc'; exact Or.inl hl
      · exact Or.inr ⟨c', hc', hl⟩

/-- A successful association-list lookup witnesses membership. -/
theorem lookup_mem {β : Type} :
    ∀ (l : List (String × β)) (k : String) (v : β),
      l.lookup k = some v → (k, v) ∈ l := by
  intro l
  induction l with
  | nil => intro k v h; cases h
  | cons e es ih =>
    intro k v h
    rcases e with ⟨k', v'⟩
    cases hbk : k == k' with
    | true =>
      have hk : k = k' := eq_of_beq hbk
      subst hk
      simp only [List.lookup, hbk] at h
      injection h with h2
      subst h2
      exact List.mem_cons_self _ _
    | false =>
      simp only [List.lookup, hbk] at h
      exact List.mem_cons_of_mem _ (ih k v h)

/-- Updating a key yields only the new binding or old bindings. -/
theorem mem_updateA {β : Type} :
    ∀ (l : List (String × β)) (k : String) (v : β) (e : String × β),
      e ∈ updateA l k v → e = (k, v) ∨ e ∈ l := by
  intro l
  induction l with
  | nil =>
    intro k v e h
    simp only [updateA, List.mem_singleton] at h
    exact Or.inl h
  | cons b bs ih =>
    intro k v e h
    rcases b with ⟨k', v'⟩
    unfold updateA at h
    by_cases hk : k' = k
    · rw [if_pos hk] at h
      rcases List.mem_cons.mp h with h | h
      · exact Or.inl h
      · exact Or.inr (List.mem_cons_of_mem _ h)
    · rw [if_neg hk] at h
      rcases List.mem_cons.mp h with h | h
      · exact Or.inr (by rw [h]; exact List.mem_cons_self _ _)
      · rcases ih k v e h with h | h
        · exact Or.inl h
        · exact Or.inr (List.mem_cons_of_mem _ h)

/-- The loop's remaining candidate set only shrinks. -/
theorem removalLoop_subset_aux (dpair : Nat → Bool) (dry : Nat → String → Bool) :
    ∀ (n : Nat) (tr : Finset String), tr.card ≤ n →
      ∀ (round : Nat) (removed : Finset String),
        (removalLoop dpair dry round tr removed).1 ⊆ tr := by
  intro n
  induction n with
  | zero =>
    intro tr hc round removed
    have htr : tr = ∅ := Finset.card_eq_zero.mp (Nat.le_zero.mp hc)
    subst htr
    have hpass : removalPass dpair dry round ∅ = ∅ :=
      Finset.subset_empty.mp (removalPass_subset dpair dry round ∅)
    rw [removalLoop, dif_pos hpass]
  | succ n ih =>
    intro tr hc round removed
    by_cases hpass : removalPass dpair dry round tr = ∅
    · rw [removalLoop, dif_pos hpass]
    · rw [removalLoop, dif_neg hpass]
      have hlt : (tr \ removalPass dpair dry round tr).card < tr.card :=
        Finset.card_lt_card
          (Finset.sdiff_ssubset (removalPass_subset dpair dry round tr)
            (Finset.nonempty_iff_ne_empty.mpr hpass))
      obtain ⟨a, b, m, hres⟩ :
          ∃ a b m, removalLoop dpair dry (round + 1)
              (tr \ removalPass dpair dry round tr)
              (removed ∪ removalPass dpair dry round tr) = (a, b, m) :=
        ⟨_, _, _, rfl⟩
      rw [hres]
      have hsub : a ⊆ tr \ removalPass dpair dry round tr := by
        have := ih (tr \ removalPass dpair dry round tr) (by omega)
          (round + 1) (removed ∪ removalPass dpair dry round tr)
        rw [hres] at this
        exact this
      exact hsub.trans Finset.sdiff_subset

/-- The loop's remaining candidate set is a subset of the initial one. -/
theorem removalLoop_subset (dpair : Nat → Bool) (dry : Nat → String → Bool)
    (round : Nat) (tr removed : Finset String) :
    (removalLoop dpair dry round tr removed).1 ⊆ tr :=
  removalLoop_subset_aux dpair dry tr.card tr le_rfl round removed

/-- Round-count bound and exit fixed point of the removal loop. -/
theorem removalLoop_fixed_aux (dpair : Nat → Bool) (dry : Nat → String → Bool) :
    ∀ (n : Nat) (tr : Finset String), tr.card ≤ n →
      ∀ (round : Nat) (removed : Finset String),
        (removalLoop dpair dry round tr removed).2.2 ≤ tr.card + 1 ∧
        1 ≤ (removalLoop dpair dry round tr removed).2.2 ∧
        removalPass dpair dry
          (round + (removalLoop dpair dry round tr removed).2.2 - 1)
          (removalLoop dpair dry round tr removed).1 = ∅ := by
  intro n
  induction n with
  | zero =>
    intro tr hc round removed
    have htr : tr = ∅ := Finset.card_eq_zero.mp (Nat.le_zero.mp hc)
    subst htr
    have hpass : removalPass dpair dry round ∅ = ∅ :=
      Finset.subset_empty.mp (removalPass_subset dpair dry round ∅)
    rw [removalLoop, dif_pos hpass]
    refine ⟨by simp, by simp, ?_⟩
    simpa using hpass
  | succ n ih =>
    intro tr hc round removed
    by_cases hpass : removalPass dpair dry round tr = ∅
    · rw [removalLoop, dif_pos hpass]
      refine ⟨by simp, by simp, ?_⟩
      simpa using hpass
    · rw [removalLoop, dif_neg hpass]
      have hlt : (tr \ removalPass dpair dry round tr).card < tr.card :=
        Finset.card_lt_card
          (Finset.sdiff_ssubset (removalPass_subset dpair dry round tr)
            (Finset.nonempty_iff_ne_empty.mpr hpass))
      obtain ⟨a, b, m, hres⟩ :
          ∃ a b m, removalLoop dpair dry (round + 1)
              (tr \ removalPass dpair dry round tr)
              (removed ∪ removalPass dpair dry round tr) = (a, b, m) :=
        ⟨_, _, _, rfl⟩
      rw [hres]
      have hih := ih (tr \ removalPass dpair dry round tr) (by omega)
        (round + 1) (removed ∪ removalPass dpair dry round tr)
      rw [hres] at hih
      dsimp only at hih
      obtain ⟨h1, h2, h3⟩ := hih
      refine ⟨by dsimp only; omega, by dsimp only; omega, ?_⟩
      have harith : round + (m + 1) - 1 = round + 1 + m - 1 := by omega
      dsimp only
      rw [harith]
      exact h3

/-- Claim C4: the removal loop inside unrecord_packages terminates for
every candidate set: a pass that removes at least one dry-run-approved
candidate strictly shrinks the remaining candidate set, the loop
executes at most (initial candidate-set size + 1) passes, and the pass
at which it exits removes nothing (a fixed point). -/
theorem removal_loop_terminates (dpair : Nat → Bool) (dry : Nat → String → Bool)
    (round : Nat) (tr removed : Finset String) :
    (removalPass dpair dry round tr ≠ ∅ →
      (tr \ removalPass dpair dry round tr).card < tr.card) ∧
    (removalLoop dpair dry round tr removed).2.2 ≤ tr.card + 1 ∧
    removalPass dpair dry
      (round + (removalLoop dpair dry round tr removed).2.2 - 1)
      (removalLoop dpair dry round tr removed).1 = ∅ := by
  have hfix := removalLoop_fixed_aux dpair dry tr.card tr le_rfl round removed
  refine ⟨?_, hfix.1, hfix.2.2⟩
  intro hpass
  exact Finset.card_lt_card
    (Finset.sdiff_ssubset (removalPass_subset dpair dry round tr)
      (Finset.nonempty_iff_ne_empty.mpr hpass))

/-- Witness for claim C4's theorem: with a single candidate approved by
every dry run, a pass strictly shrinks the candidate set and the loop
ends within the bound. -/
theorem removal_loop_terminates_witness :
    (({"p1"} : Finset String) \
        removalPass (fun _ => false) (fun _ _ => true) 0 {"p1"}).card <
      ({"p1"} : Finset String).card ∧
    (removalLoop (fun _ => false) (fun _ _ => true) 0 {"p1"} ∅).2.2 ≤
      ({"p1"} : Finset String).card + 1 :=
  ⟨(removal_loop_terminates (fun _ => false) (fun _ _ => true) 0 {"p1"} ∅).1
      (by decide),
    (removal_loop_terminates (fun _ => false) (fun _ _ => true) 0 {"p1"} ∅).2.1⟩

/-- Recording packages preserves the removal-candidate invariant: the
newly owned set is removed from the candidates, and all other owned sets
are unchanged. -/
theorem record_preserves (charm layer : String) (names : Finset String)
    (r : OwnRecord) (hinv : removeInv r) :
    removeInv (record_packages charm layer names r) := by
  intro p hp hcon
  unfold record_packages at hp hcon
  dsimp only at hp hcon
  rw [Finset.mem_sdiff] at hp
  obtain ⟨hpr, hpc⟩ := hp
  rw [mem_unionLayers] at hcon
  obtain ⟨c, hc, l, hl, hx⟩ := hcon
  rcases mem_updateA _ _ _ _ hc with hc | hc
  · subst hc
    rcases mem_updateA _ _ _ _ hl with hl | hl
    · rw [hl] at hx
      exact hpc hx
    · rcases hlay : (r.charms.lookup charm) with _ | layers
      · rw [hlay] at hl
        cases hl
      · rw [hlay] at hl
        exact hinv p hpr (mem_unionLayers _ |>.mpr
          ⟨(charm, layers), lookup_mem _ _ _ hlay, l, hl, hx⟩)
  · exact hinv p hpr (mem_unionLayers _ |>.mpr ⟨c, hc, l, hl, hx⟩)

/-- The tail of unrecord_packages establishes the invariant outright:
the stored candidate set is contained in the computed one, which
excludes everything any remaining layer owns. -/
theorem unrecordTail_inv (charms2 : List (String × List (String × Finset String)))
    (remove packages : Finset String) (dpair : Nat → Bool)
    (dry : Nat → String → Bool) :
    removeInv (unrecordTail charms2 remove packages dpair dry).1 := by
  unfold unrecordTail
  obtain ⟨a, b, m, hres⟩ :
      ∃ a b m, removalLoop dpair dry 0
          ((remove ∪ packages) \ unionLayers charms2) ∅ = (a, b, m) :=
    ⟨_, _, _, rfl⟩
  rw [hres]
  intro p hp hcon
  dsimp only at hp hcon
  rw [Finset.mem_sdiff] at hp
  have hsub := removalLoop_subset dpair dry 0
    ((remove ∪ packages) \ unionLayers charms2) ∅
  rw [hres] at hsub
  have := hsub hp.1
  rw [Finset.mem_sdiff] at this
  exact this.2 hcon

/-- Tearing a layer down establishes the invariant unconditionally. -/
theorem unrecord_establishes (charm layer : String) (dpair : Nat → Bool)
    (dry : Nat → String → Bool) (r : OwnRecord) :
    removeInv (unrecord_packages charm layer dpair dry r).1 := by
  unfold unrecord_packages
  cases hc : List.lookup charm r.charms with
  | none => exact unrecordTail_inv _ _ _ _ _
  | some layers =>
    dsimp only
    cases hl : List.lookup layer layers with
    | none => exact unrecordTail_inv _ _ _ _ _
    | some pkgs => exact unrecordTail_inv _ _ _ _ _

/-- A pass in which every dry run fails removes nothing. -/
theorem removalPass_false (round : Nat) (tr : Finset String) :
    removalPass (fun _ => false) (fun _ _ => false) round tr = ∅ := by
  unfold removalPass
  rw [if_neg (fun hc => by cases hc.2)]
  simp

/-- The loop exits immediately when every dry run fails. -/
theorem removalLoop_false (round : Nat) (tr removed : Finset String) :
    removalLoop (fun _ => false) (fun _ _ => false) round tr removed =
      (tr, removed, 1) := by
  rw [removalLoop, dif_pos (removalPass_false round tr)]

/-- Claim C3: for every sequence of record_packages/unrecord_packages
calls starting from an empty ownership record, after each call a package
name appears in the global removal candidate set only if no remaining
layer's owned set contains it; and unrecord_packages recomputes the
candidate set as (previous removal set ∪ the freed layer's packages)
minus the union of all remaining layers' owned sets (stored verbatim
when no dry-run removal succeeds). -/
theorem ownership_conservation :
    (∀ ops : List RepoOp, removeInv (runOps ops)) ∧
    (∀ (r : OwnRecord) (charm layer : String)
        (layers : List (String × Finset String)) (pkgs : Finset String),
      r.charms.lookup charm = some layers →
      layers.lookup layer = some pkgs →
      (unrecord_packages charm layer (fun _ => false)
          (fun _ _ => false) r).1.remove =
        (r.remove ∪ pkgs) \
          unionLayers (unrecord_packages charm layer (fun _ => false)
            (fun _ _ => false) r).1.charms) := by
  constructor
  · intro ops
    have hgen : ∀ (l : List RepoOp) (r : OwnRecord), removeInv r →
        removeInv (l.foldl applyOp r) := by
      intro l
      induction l with
      | nil => intro r h; exact h
      | cons op rest ih =>
        intro r h
        apply ih
        cases op with
        | record charm layer names => exact record_preserves charm layer names r h
        | unrecord charm layer dpair dry => exact unrecord_establishes charm layer dpair dry r
    exact hgen ops { charms := [], remove := ∅ }
      (fun p hp => absurd hp (Finset.not_mem_empty p))
  · intro r charm layer layers pkgs hc hl
    unfold unrecord_packages
    rw [hc]
    dsimp only
    rw [hl]
    dsimp only
    unfold unrecordTail
    rw [removalLoop_false]
    dsimp only
    rw [Finset.sdiff_empty]

/-- Concrete one-charm one-layer record used by the C3 witness. -/
def rec0 : OwnRecord :=
  { charms := [("c", [("l", ({"a"} : Finset String))])], remove := ∅ }

/-- Witness for claim C3's theorem: unrecording the only layer of the
concrete record proposes exactly its freed package set minus what the
(empty) remaining layers own. -/
theorem ownership_conservation_witness :
    (unrecord_packages "c" "l" (fun _ => false)
        (fun _ _ => false) rec0).1.remove =
      (rec0.remove ∪ {"a"}) \
        unionLayers (unrecord_packages "c" "l" (fun _ => false)
          (fun _ _ => false) rec0).1.charms :=
  ownership_conservation.2 rec0 "c" "l" [("l", {"a"})] {"a"} rfl rfl

/-- Embedding of the try/except FileNotFoundError wrapper of
`unrecord_packages` (repo.py lines 288-375): the ownership-record file
is `none` when /var/lib/storpool/install-charms.json does not exist, in
which case the exception is caught and nothing happens; otherwise the
record is processed and written back.  Returns the resulting file state
and the set of packages uninstalled from the host. -/
def unrecord_packages_file (charm layer : String) (dpair : Nat → Bool)
    (dry : Nat → String → Bool) (file : Option OwnRecord) :
    Option OwnRecord × Finset String :=
  match file with
  | none => (none, ∅)
  | some r =>
    (some (unrecord_packages charm layer dpair dry r).1,
     (unrecord_packages charm layer dpair dry r).2)

/-- Claim C10: when the ownership-record file does not exist,
unrecord_packages returns normally for every layer name (the
FileNotFoundError is caught), uninstalls no packages, and leaves the
file state unchanged. -/
theorem unrecord_packages_missing_file (charm layer : String)
    (dpair : Nat → Bool) (dry : Nat → String → Bool) :
    unrecord_packages_file charm layer dpair dry none = (none, ∅) := rfl

/-! ## Stage chain: spcharms/run/storpool_{repo_add,config,common,
openstack_integration,beacon}.py

Each module's run() first calls the next module's run() to completion
and then does its own work; stop() does its own teardown first and then
calls the next module's stop().  The call structure is static (fixed
imports), so each run/stop body is embedded as the trace of stage-tagged
actions it performs, in execution order. -/

/-- The five stages, bottom (repo-add) to top (beacon). -/
inductive Stage where
  | repoAdd
  | config
  | common
  | osi
  | beacon
deriving DecidableEq

/-- Position of a stage in the chain; upstream stages rank lower. -/
def stageRank : Stage → Nat
  | .repoAdd => 0
  | .config => 1
  | .common => 2
  | .osi => 3
  | .beacon => 4

/-- Trace of storpool_repo_add.run (storpool_repo_add.py lines 366-374). -/
def repo_add_run : List (Stage × String) :=
  [(.repoAdd, "try_config"), (.repoAdd, "do_install_apt_key"),
   (.repoAdd, "do_install_apt_repo"), (.repoAdd, "do_update_apt")]

/-- Trace of storpool_config.run (storpool_config.py lines 181-188). -/
def config_run : List (Stage × String) :=
  repo_add_run ++
    [(.config, "config_changed"), (.config, "install_package"),
     (.config, "write_out_config")]

/-- Trace of storpool_common.run (storpool_common.py lines 341-346). -/
def common_run : List (Stage × String) :=
  config_run ++
    [(.common, "install_package"), (.common, "copy_config_files")]

/-- Trace of storpool_openstack_integration.run (lines 196-202). -/
def osi_run : List (Stage × String) :=
  common_run ++
    [(.osi, "config_changed"), (.osi, "install_package"),
     (.osi, "enable_and_start")]

/-- Trace of storpool_beacon.run (storpool_beacon.py lines 86-91). -/
def beacon_run : List (Stage × String) :=
  osi_run ++
    [(.beacon, "install_package"), (.beacon, "enable_and_start")]

/-- Trace of storpool_repo_add.stop (lines 377-393). -/
def repo_add_stop : List (Stage × String) :=
  [(.repoAdd, "remove_apt_files")]

/-- Trace of storpool_config.stop (storpool_config.py lines 191-240);
module unloading is skipped inside an LXC container. -/
def config_stop (inLxc : Bool) : List (Stage × String) :=
  [(.config, "txn_rollback")] ++
    (if inLxc then [] else [(.config, "remove_kernel_modules")]) ++
    [(.config, "unrecord_packages storpool-config")] ++ repo_add_stop

/-- Trace of storpool_common.stop (storpool_common.py lines 349-359). -/
def common_stop (inLxc : Bool) : List (Stage × String) :=
  [(.common, "unrecord_packages storpool-common")] ++ config_stop inLxc

/-- Trace of storpool_openstack_integration.stop (lines 205-215). -/
def osi_stop (inLxc : Bool) : List (Stage × String) :=
  [(.osi, "unrecord_packages storpool-osi")] ++ common_stop inLxc

/-- Trace of storpool_beacon.stop (storpool_beacon.py lines 94-108);
the service pause and package removal are skipped inside LXC. -/
def beacon_stop (inLxc : Bool) : List (Stage × String) :=
  (if inLxc then []
   else [(.beacon, "service_pause storpool_beacon"),
         (.beacon, "unrecord_packages storpool-beacon")]) ++
    osi_stop inLxc

/-- Claim C7: in the stage chain beacon → openstack-integration →
common → config → repo-add, each run() invokes the upstream stage's
run() to completion before its own package/service work (the trace is
the upstream trace followed by the stage's own actions, and stage ranks
are nondecreasing along the whole trace), and each stop() undoes its
own changes first and only then invokes the next stage's stop() (ranks
are nonincreasing along the stop trace). -/
theorem stage_chain_order (inLxc : Bool) :
    beacon_run = osi_run ++
      [(.beacon, "install_package"), (.beacon, "enable_and_start")] ∧
    osi_run = common_run ++
      [(.osi, "config_changed"), (.osi, "install_package"),
       (.osi, "enable_and_start")] ∧
    common_run = config_run ++
      [(.common, "install_package"), (.common, "copy_config_files")] ∧
    config_run = repo_add_run ++
      [(.config, "config_changed"), (.config, "install_package"),
       (.config, "write_out_config")] ∧
    beacon_stop inLxc =
      (if inLxc then []
       else [(.beacon, "service_pause storpool_beacon"),
             (.beacon, "unrecord_packages storpool-beacon")]) ++
        osi_stop inLxc ∧
    osi_stop inLxc =
      [(.osi, "unrecord_packages storpool-osi")] ++ common_stop inLxc ∧
    common_stop inLxc =
      [(.common, "unrecord_packages storpool-common")] ++ config_stop inLxc ∧
    beacon_run.Pairwise (fun e1 e2 => stageRank e1.1 ≤ stageRank e2.1) ∧
    (beacon_stop inLxc).Pairwise (fun e1 e2 => stageRank e2.1 ≤ stageRank e1.1) := by
  cases inLxc <;>
    exact ⟨rfl, rfl, rfl, rfl, rfl, rfl, rfl, by decide, by decide⟩

/-! ## Control groups: configure_cgroups (spcharms/run/storpool_common.py) -/

/-- The configured slice sizes in megabytes, as produced by
`parse_cgroup_slice_size` (storpool_common.py lines 144-168). -/
structure CgMem where
  mem_kernel : Nat
  mem_storpool : Nat
  mem_system : Nat
  mem_user : Nat
deriving DecidableEq

/-- The template context computed by `configure_cgroups` (numeric parts;
cpu_rest spans cpu_rest_lo..cpu_rest_hi). -/
structure CgConfig where
  cpu_rdma : Nat
  cpu_beacon : Nat
  cpu_block : Nat
  cpu_rest_lo : Nat
  cpu_rest_hi : Nat
  mem_kernel : Nat
  mem_storpool : Nat
  mem_system : Nat
  mem_user : Nat
  mem_machine : Nat
  memsw_system : Nat
  memsw_user : Nat
  memsw_machine : Nat
deriving DecidableEq

/-- The computation core of `configure_cgroups` (storpool_common.py lines
171-254) over the live host metrics it reads: the sorted CPU ids from
/proc/cpuinfo, MemTotal normalised to megabytes from /proc/meminfo, the
configured slice sizes, and the total swap in megabytes from /proc/swaps.
The two FOR-DEVELOPMENT-ONLY bypasses are passed as flags; under
`bypass_cpus` an empty CPU list is left unextended (the Python would
raise IndexError on `all_cpus[-1]` there) and the later length check
fails either way. -/
def configure_cgroups (bypass_cpus bypass_mem : Bool) (all_cpus : List Nat)
    (mem_total : Nat) (mem : CgMem) (total_swap : Nat) :
    Except SPError CgConfig :=
  let cpus := if bypass_cpus then
      all_cpus ++ (match all_cpus.getLast? with
        | some l => [l, l, l]
        | none => [])
    else all_cpus
  if cpus.length < 4 then
    .error (.storpool "Not enough CPUs, need at least 4")
  else
    let mem := if bypass_mem then
        { mem_system := 1900, mem_user := 512,
          mem_storpool := 1024, mem_kernel := 512 }
      else mem
    let mem_reserved :=
      mem.mem_system + mem.mem_user + mem.mem_storpool + mem.mem_kernel
    if mem_total ≤ mem_reserved then
      .error (.storpool
        ("Not enough memory, only have " ++ toString mem_total ++
         "M, need " ++ toString mem_reserved ++ "M"))
    else
      .ok { cpu_rdma := cpus.getD 0 0
            cpu_beacon := cpus.getD 1 0
            cpu_block := cpus.getD 2 0
            cpu_rest_lo := cpus.getD 3 0
            cpu_rest_hi := (cpus.getLast?).getD 0
            mem_kernel := mem.mem_kernel
            mem_storpool := mem.mem_storpool
            mem_system := mem.mem_system
            mem_user := mem.mem_user
            mem_machine := mem_total - mem_reserved
            memsw_system := mem.mem_system + total_swap
            memsw_user := mem.mem_user + total_swap
            memsw_machine := (mem_total - mem_reserved) + total_swap }

/-- Claim C8: configure_cgroups (without the development bypasses)
raises a StorPool exception when the host reports fewer than 4 CPUs,
raises when MemTotal in megabytes is not strictly greater than the sum
of the configured kernel, storpool, system and user slice sizes, and
otherwise succeeds with the machine slice receiving exactly the total
minus that reserved sum. -/
theorem configure_cgroups_checks (all_cpus : List Nat) (mem_total : Nat)
    (mem : CgMem) (total_swap : Nat) :
    (all_cpus.length < 4 →
      configure_cgroups false false all_cpus mem_total mem total_swap =
        .error (.storpool "Not enough CPUs, need at least 4")) ∧
    (4 ≤ all_cpus.length →
      mem_total ≤ mem.mem_kernel + mem.mem_storpool +
        mem.mem_system + mem.mem_user →
      ∃ msg, configure_cgroups false false all_cpus mem_total mem total_swap =
        .error (.storpool msg)) ∧
    (4 ≤ all_cpus.length →
      mem.mem_kernel + mem.mem_storpool + mem.mem_system + mem.mem_user <
        mem_total →
      ∃ cfg, configure_cgroups false false all_cpus mem_total mem total_swap =
        .ok cfg ∧
        cfg.mem_machine = mem_total - (mem.mem_kernel + mem.mem_storpool +
          mem.mem_system + mem.mem_user)) := by
  refine ⟨?_, ?_, ?_⟩
  · intro hcpu
    unfold configure_cgroups
    rw [if_pos (by simpa using hcpu)]
  · intro hcpu hmem
    unfold configure_cgroups
    simp only [Bool.false_eq_true, if_false]
    rw [if_neg (by omega), if_pos (by omega)]
    exact ⟨_, rfl⟩
  · intro hcpu hmem
    unfold configure_cgroups
    simp only [Bool.false_eq_true, if_false]
    rw [if_neg (by omega), if_neg (by omega)]
    refine ⟨_, rfl, ?_⟩
    dsimp only
    omega

/-- Witness for claim C8's theorem: four CPUs and 4096 MB of memory
against 1024 MB of reserved slices leave 3072 MB for the machine
slice. -/
theorem configure_cgroups_checks_witness :
    ∃ cfg, configure_cgroups false false [0, 1, 2, 3] 4096
        ⟨256, 256, 256, 256⟩ 0 = .ok cfg ∧
      cfg.mem_machine = 4096 - (256 + 256 + 256 + 256) :=
  (configure_cgroups_checks [0, 1, 2, 3] 4096 ⟨256, 256, 256, 256⟩ 0).2.2
    (by decide) (by decide)

/-! ## Transactional installer helpers: spcharms/txn.py -/

/-- Python `str.split('\n')` over the characters of a string: empty
pieces are kept and the result always has at least one element. -/
def splitOnNl : List Char → List Char → List (List Char)
  | [], cur => [cur.reverse]
  | c :: rest, cur =>
    if c = '\n' then cur.reverse :: splitOnNl rest []
    else splitOnNl rest (c :: cur)

/-- Embedding of `txn.list_modules` (txn.py lines 32-40) over the output
of `subprocess.getoutput('txn list-modules')`, modelled as an optional
character string to keep the Python `is None` branch visible. -/
def list_modules (output : Option (List Char)) : List (List Char) :=
  match output with
  | none => []
  | some s => splitOnNl s []

/-- Splitting on newlines never yields an empty list. -/
theorem splitOnNl_length : ∀ (s cur : List Char), 1 ≤ (splitOnNl s cur).length := by
  intro s
  induction s with
  | nil => intro cur; simp [splitOnNl]
  | cons c rest ih =>
    intro cur
    unfold splitOnNl
    by_cases hc : c = '\n'
    · rw [if_pos hc]
      simp
    · rw [if_neg hc]
      exact ih (c :: cur)

/-- Claim C9: `txn.list_modules` never returns an empty list for a
string output: splitting any string on newlines yields at least one
element, so with no recorded modules it returns a single-element list
holding the empty string, while only the (unreachable for
`subprocess.getoutput`) `None` branch would produce `[]`. -/
theorem list_modules_never_empty :
    (∀ s : List Char, 1 ≤ (list_modules (some s)).length) ∧
    list_modules (some []) = [[]] ∧
    list_modules none = [] :=
  ⟨fun s => splitOnNl_length s [], rfl, rfl⟩
